import Mathlib

/-!
Shallow embedding of the jurnal_scraping repository
(fathurp01/indonesia-health-journals-pdf-scraper): the validation /
deduplication / download-cap pipeline (`jurnal_scraping/pipelines.py`)
and the DOAJ spider's extraction helpers
(`jurnal_scraping/spiders/doaj_kesehatan_id.py`).

Python strings are modelled as Lean `String` (a list of code points);
Python's `\s` whitespace class is modelled by its ASCII members, and
`str.lower` by ASCII lowercasing, which agree with Python on all ASCII
input.  External collaborators (the `langdetect` detector, the
filesystem, `urllib.parse.urljoin`) are modelled as explicit function
parameters or as small faithful functions, as noted at each definition.
-/

set_option maxRecDepth 10000

namespace JurnalScraping

/-- ASCII members of Python's `\s` class: space, tab, newline, carriage
return, form feed, vertical tab. -/
def isPyWs (c : Char) : Bool :=
  c = ' ' || c = '\t' || c = '\n' || c = '\r' || c = '\x0c' || c = '\x0b'

/-- Helper for `collapseWs`: the flag records whether we are inside a
whitespace run whose single replacement space was already emitted. -/
def collapseWsAux : Bool → List Char → List Char
  | _, [] => []
  | inRun, c :: cs =>
    if isPyWs c then
      if inRun then collapseWsAux true cs
      else ' ' :: collapseWsAux true cs
    else c :: collapseWsAux false cs

/-- Replace every maximal run of whitespace by a single space, as
`re.sub(r"\s+", " ", _)` does. -/
def collapseWs (l : List Char) : List Char :=
  collapseWsAux false l

/-- Drop the longest suffix of elements satisfying `p`. -/
def dropTrailing (p : Char → Bool) (l : List Char) : List Char :=
  (l.reverse.dropWhile p).reverse

/-- Python `str.strip()` restricted to a character class `p`. -/
def pyStripBy (p : Char → Bool) (l : List Char) : List Char :=
  dropTrailing p (l.dropWhile p)

/-- `_normalize_spaces` from `pipelines.py`: collapse whitespace runs to
single spaces and strip ends (`re.sub(r"\s+", " ", value).strip()` on
`value or ""`). -/
def normalizeSpaces (s : String) : String :=
  String.mk (pyStripBy isPyWs (collapseWs s.data))

/-- ASCII `str.lower`. -/
def lowerStr (s : String) : String :=
  String.mk (s.data.map Char.toLower)

/-- Is `nd` an initial segment of `l`? -/
def isPreOf : List Char → List Char → Bool
  | [], _ => true
  | _ :: _, [] => false
  | a :: as, b :: bs => a = b && isPreOf as bs

/-- Does `nd` occur contiguously inside `hay`?  (Python `nd in hay`.) -/
def hasSub (nd : List Char) : List Char → Bool
  | [] => nd.isEmpty
  | c :: cs => isPreOf nd (c :: cs) || hasSub nd cs

/-- Python `needle in hay` on strings. -/
def strContains (hay needle : String) : Bool :=
  hasSub needle.data hay.data

/-- Python `hay.startswith(nd)`. -/
def strStarts (hay nd : String) : Bool :=
  isPreOf nd.data hay.data

/-- Python `hay.endswith(nd)`. -/
def strEnds (hay nd : String) : Bool :=
  isPreOf nd.data.reverse hay.data.reverse

/-- Python `str.strip()` (whitespace). -/
def pyStrip (s : String) : String :=
  String.mk (pyStripBy isPyWs s.data)

/-- Truthiness-based `a or b` on strings. -/
def strOr (a b : String) : String :=
  if a = "" then b else a

/-! ### SHA-1 (`hashlib.sha1(url.encode("utf-8")).hexdigest()`)

A direct functional implementation of FIPS 180 SHA-1 over the UTF-8
bytes of the input string, with 32-bit words as `Nat` reduced
`% 2 ^ 32`. -/

/-- 32-bit wraparound. -/
def w32 (n : Nat) : Nat := n % 4294967296

/-- Rotate a 32-bit word left by `k` (for `0 < k < 32`, `x < 2 ^ 32`). -/
def rotl32 (x k : Nat) : Nat :=
  w32 (x <<< k) ||| (x >>> (32 - k))

/-- UTF-8 encoding of one code point. -/
def utf8Char (c : Char) : List Nat :=
  let n := c.toNat
  if n < 128 then [n]
  else if n < 2048 then
    [192 ||| (n >>> 6), 128 ||| (n &&& 63)]
  else if n < 65536 then
    [224 ||| (n >>> 12), 128 ||| ((n >>> 6) &&& 63), 128 ||| (n &&& 63)]
  else
    [240 ||| (n >>> 18), 128 ||| ((n >>> 12) &&& 63),
     128 ||| ((n >>> 6) &&& 63), 128 ||| (n &&& 63)]

/-- UTF-8 bytes of a string (`str.encode("utf-8")`). -/
def utf8Bytes (s : String) : List Nat := s.data.flatMap utf8Char

/-- `k` big-endian bytes of `n`. -/
def beBytes : Nat → Nat → List Nat
  | 0, _ => []
  | k + 1, n => ((n >>> (8 * k)) &&& 255) :: beBytes k n

/-- SHA-1 message padding: append `0x80`, zero bytes to 56 mod 64, then
the 64-bit big-endian bit length. -/
def sha1Pad (msg : List Nat) : List Nat :=
  let z := (120 - ((msg.length + 1) % 64)) % 64
  msg ++ 128 :: (List.replicate z 0 ++ beBytes 8 (8 * msg.length))

/-- Split a byte list into chunks of `k` elements (structural fuel
recursion; `fuel` at least the list length). -/
def chunksF (k : Nat) : Nat → List Nat → List (List Nat)
  | 0, _ => []
  | _, [] => []
  | fuel + 1, b :: bs => ((b :: bs).take k) :: chunksF k fuel ((b :: bs).drop k)

/-- Split a byte list into 64-byte blocks. -/
def toBlocks (l : List Nat) : List (List Nat) :=
  chunksF 64 l.length l

/-- Big-endian word from bytes. -/
def beWord (l : List Nat) : Nat := l.foldl (fun a b => a * 256 + b) 0

/-- Split a 64-byte block into sixteen 32-bit big-endian words. -/
def toWords (l : List Nat) : List Nat :=
  (chunksF 4 l.length l).map beWord

/-- Message-schedule extension; `acc` holds the words produced so far,
newest first, so `w[i-3]` is at index 2, `w[i-8]` at 7, `w[i-14]` at
13, `w[i-16]` at 15. -/
def sha1Extend : Nat → List Nat → List Nat
  | 0, acc => acc
  | k + 1, acc =>
    let x := rotl32
      ((((acc.getD 2 0) ^^^ (acc.getD 7 0)) ^^^ (acc.getD 13 0)) ^^^ (acc.getD 15 0)) 1
    sha1Extend k (x :: acc)

/-- The 80-word message schedule of one block. -/
def sha1Schedule (ws : List Nat) : List Nat :=
  (sha1Extend 64 ws.reverse).reverse

/-- Round-dependent boolean function. -/
def sha1F (i b c d : Nat) : Nat :=
  if i < 20 then (b &&& c) ||| ((b ^^^ 4294967295) &&& d)
  else if i < 40 then (b ^^^ c) ^^^ d
  else if i < 60 then ((b &&& c) ||| (b &&& d)) ||| (c &&& d)
  else (b ^^^ c) ^^^ d

/-- Round-dependent constant. -/
def sha1K (i : Nat) : Nat :=
  if i < 20 then 1518500249
  else if i < 40 then 1859775393
  else if i < 60 then 2400959708
  else 3395469782

/-- One SHA-1 round. -/
def sha1Round (st : Nat × Nat × Nat × Nat × Nat) (iw : Nat × Nat) :
    Nat × Nat × Nat × Nat × Nat :=
  match st, iw with
  | (a, b, c, d, e), (i, w) =>
    (w32 (rotl32 a 5 + sha1F i b c d + e + sha1K i + w), a, rotl32 b 30, c, d)

/-- Compress one 64-byte block into the running state. -/
def sha1Block (h : Nat × Nat × Nat × Nat × Nat) (block : List Nat) :
    Nat × Nat × Nat × Nat × Nat :=
  let ws := sha1Schedule (toWords block)
  match h, ((List.range 80).zip ws).foldl sha1Round h with
  | (h0, h1, h2, h3, h4), (a, b, c, d, e) =>
    (w32 (h0 + a), w32 (h1 + b), w32 (h2 + c), w32 (h3 + d), w32 (h4 + e))

/-- The five 32-bit state words of the SHA-1 digest of a string. -/
def sha1Words (s : String) : List Nat :=
  match (toBlocks (sha1Pad (utf8Bytes s))).foldl sha1Block
      (1732584193, 4023233417, 2562383102, 271733878, 3285377520) with
  | (a, b, c, d, e) => [a, b, c, d, e]

/-- Lowercase hex digit. -/
def hexDigit : Nat → Char
  | 0 => '0' | 1 => '1' | 2 => '2' | 3 => '3' | 4 => '4'
  | 5 => '5' | 6 => '6' | 7 => '7' | 8 => '8' | 9 => '9'
  | 10 => 'a' | 11 => 'b' | 12 => 'c' | 13 => 'd' | 14 => 'e'
  | _ => 'f'

/-- Eight hex digits of a 32-bit word, most significant first. -/
def wordHex (w : Nat) : List Char :=
  [hexDigit ((w >>> 28) &&& 15), hexDigit ((w >>> 24) &&& 15),
   hexDigit ((w >>> 20) &&& 15), hexDigit ((w >>> 16) &&& 15),
   hexDigit ((w >>> 12) &&& 15), hexDigit ((w >>> 8) &&& 15),
   hexDigit ((w >>> 4) &&& 15), hexDigit (w &&& 15)]

/-- `hashlib.sha1(s.encode("utf-8")).hexdigest()` as a character list. -/
def sha1HexList (s : String) : List Char := (sha1Words s).flatMap wordHex

/-- `hashlib.sha1(s.encode("utf-8")).hexdigest()`. -/
def sha1Hex (s : String) : String := String.mk (sha1HexList s)

/-! ### `_slugify_filename` and `PdfDownloadPipeline.file_path` -/

/-- Characters kept by the slug regex `[^a-z0-9]` (input is already
lowercased). -/
def isSlugKeep (c : Char) : Bool :=
  (97 ≤ c.toNat && c.toNat ≤ 122) || (48 ≤ c.toNat && c.toNat ≤ 57)

/-- Composite effect of `re.sub(r"[^a-z0-9]+", "-", _)` followed by
`re.sub(r"-+", "-", _)`: every maximal run of non-kept characters
becomes one hyphen.  The flag records being inside such a run. -/
def slugCollapseAux : Bool → List Char → List Char
  | _, [] => []
  | inRun, c :: cs =>
    if isSlugKeep c then c :: slugCollapseAux false cs
    else if inRun then slugCollapseAux true cs
    else '-' :: slugCollapseAux true cs

/-- `_slugify_filename` from `pipelines.py`. -/
def slugifyFilename (value : String) (maxlen : Int) : String :=
  let text := (pyStrip value).data.map Char.toLower
  let text := pyStripBy (fun c => c = '-') (slugCollapseAux false text)
  if text = [] then ""
  else
    let text := text.take (max 1 maxlen).toNat
    let text := dropTrailing (fun c => c = '-' || c = ' ') text
    String.mk (pyStripBy (fun c => c = '.' || c = ' ') text)

/-- The filename-relevant configuration of `PdfDownloadPipeline`
(`PDF_FILENAME_BY_TITLE`, `PDF_FILENAME_HASH_LEN`,
`PDF_FILENAME_SLUG_MAXLEN`). -/
structure FileCfg where
  byTitle : Bool
  hashLen : Int
  slugMaxlen : Int
deriving Repr, DecidableEq

/-- `max(6, min(int(self.pdf_filename_hash_len), 40))` from
`file_path`. -/
def shortHashLen (hashLen : Int) : Nat :=
  (max 6 (min hashLen 40)).toNat

/-- `PdfDownloadPipeline.file_path`.  The item is modelled by its
title when present (`item.get("title", "")`); `request.url` is the
`url` argument. -/
def file_path (cfg : FileCfg) (url : String) (item : Option String) : String :=
  let digest := sha1HexList url
  match cfg.byTitle, item with
  | true, some title =>
    let slug := slugifyFilename (normalizeSpaces title) cfg.slugMaxlen
    if slug ≠ "" then
      "pdfs/" ++ slug ++ "-" ++ String.mk (digest.take (shortHashLen cfg.hashLen)) ++ ".pdf"
    else
      "pdfs/" ++ String.mk digest ++ ".pdf"
  | _, _ => "pdfs/" ++ String.mk digest ++ ".pdf"

/-! ### Spider helpers (`spiders/doaj_kesehatan_id.py`) -/

/-- A loosely-typed JSON-ish Python value, as received by
`_pick_first_string` (`typing.Any`).  `other` stands for any value that
is neither `None`, a string, nor a list (numbers, dicts, ...). -/
inductive PyVal where
  | none
  | str (s : String)
  | list (l : List PyVal)
  | other
deriving Repr

/-- `re.sub(r"\s+", " ", value).strip()` as used inside
`_pick_first_string`. -/
def subWsStrip (s : String) : String :=
  String.mk (pyStripBy isPyWs (collapseWs s.data))

/-- First string element of a list with non-whitespace content,
whitespace-normalized (the list arm of `_pick_first_string`). -/
def pickFromList : List PyVal → String
  | [] => ""
  | PyVal.str v :: vs => if pyStrip v ≠ "" then subWsStrip v else pickFromList vs
  | _ :: vs => pickFromList vs

/-- `DoajKesehatanIndonesiaSpider._pick_first_string`. -/
def pick_first_string : PyVal → String
  | PyVal.none => ""
  | PyVal.str s => subWsStrip s
  | PyVal.list l => pickFromList l
  | PyVal.other => ""

/-- One entry of `bibjson.link`: `link.get("url")` and
`link.get("type")`, both already coerced to strings (`None` as `""`). -/
structure Link where
  url : String
  ltype : String
deriving Repr, DecidableEq

/-- First-loop condition of `_extract_pdf_url`: non-empty stripped URL,
type mentioning `fulltext` (lowercased), URL ending in `.pdf`
(lowercased). -/
def isFulltextPdfLink (link : Link) : Bool :=
  pyStrip link.url ≠ "" &&
  strContains (lowerStr link.ltype) "fulltext" &&
  strEnds (lowerStr (pyStrip link.url)) ".pdf"

/-- Second-loop condition of `_extract_pdf_url`: non-empty stripped URL
ending in `.pdf` (lowercased). -/
def isPdfLink (link : Link) : Bool :=
  pyStrip link.url ≠ "" && strEnds (lowerStr (pyStrip link.url)) ".pdf"

/-- `DoajKesehatanIndonesiaSpider._extract_pdf_url`. -/
def extract_pdf_url (links : List Link) : String :=
  match links.find? isFulltextPdfLink with
  | some link => pyStrip link.url
  | none =>
    match links.find? isPdfLink with
    | some link => pyStrip link.url
    | none => ""

/-- Locate `scheme://authority` at the front of a URL's characters;
`acc` holds the already-scanned characters in reverse. -/
def findOriginAux : List Char → List Char → Option (List Char)
  | _, [] => Option.none
  | acc, c :: cs =>
    if isPreOf "://".data (c :: cs) then
      Option.some (acc.reverse ++ "://".data ++
        (cs.drop 2).takeWhile (fun x => x ≠ '/'))
    else findOriginAux (c :: acc) cs

/-- Models `urllib.parse.urljoin` (external library) for http(s) base
URLs, without dot-segment normalization: an absolute reference wins, a
scheme-relative (`//`) reference takes the base scheme, a root-relative
(`/`) reference takes the base origin, anything else replaces the last
path segment of the base. -/
def urljoin (base rel : String) : String :=
  if rel = "" then base
  else if strContains rel "://" then rel
  else
    match findOriginAux [] base.data with
    | Option.none => rel
    | Option.some origin =>
      if strStarts rel "//" then
        String.mk (base.data.takeWhile (fun c => c ≠ ':')) ++ ":" ++ rel
      else if strStarts rel "/" then
        String.mk origin ++ rel
      else
        String.mk (dropTrailing (fun c => c ≠ '/')
          (origin ++ base.data.drop origin.length)) ++ rel

/-- A landing page as consulted by `_find_pdf_url_in_landing`: the page
URL, the content of the `citation_pdf_url` meta tag when present, and
the page's anchors as (href, label) pairs (anchors without an `href`
attribute carry `""`). -/
structure Page where
  pageUrl : String
  metaPdf : Option String
  anchors : List (String × String)
deriving Repr, DecidableEq

/-- The filtered href list of `_find_pdf_url_in_landing`: stripped,
non-empty, not `javascript:`. -/
def landingHrefs (page : Page) : List String :=
  ((page.anchors.map (fun a => a.1)).filter
      (fun h => pyStrip h ≠ "" &&
        !(strStarts (lowerStr (pyStrip h)) "javascript:"))).map pyStrip

/-- Step-2 condition of `_find_pdf_url_in_landing`: the lowercased href
contains `.pdf`. -/
def hrefHasPdfExt (h : String) : Bool :=
  strContains (lowerStr h) ".pdf"

/-- Step-3 condition of `_find_pdf_url_in_landing`: the lowercased href
contains `pdf` or `download`. -/
def hrefMentionsPdfOrDownload (h : String) : Bool :=
  strContains (lowerStr h) "pdf" || strContains (lowerStr h) "download"

/-- The two hyperlink fallback steps of `_find_pdf_url_in_landing`
(reached when the `citation_pdf_url` meta tag is absent or blank). -/
def findInLandingHrefs (page : Page) : String :=
  let hrefs := landingHrefs page
  match hrefs.find? hrefHasPdfExt with
  | some h => urljoin page.pageUrl h
  | Option.none =>
    match hrefs.find? hrefMentionsPdfOrDownload with
    | some h => urljoin page.pageUrl h
    | Option.none => ""

/-- `DoajKesehatanIndonesiaSpider._find_pdf_url_in_landing`. -/
def find_pdf_url_in_landing (page : Page) : String :=
  match page.metaPdf with
  | some m =>
    if pyStrip m ≠ "" then urljoin page.pageUrl (pyStrip m)
    else findInLandingHrefs page
  | Option.none => findInLandingHrefs page

/-- Modelled from the spec (§4.2 step 3): the hyperlink fallback steps
with the third step matching on the hyperlink's target OR label ("the
first hyperlink whose target or label contains the words 'download' or
the format name").  Used only to compare the spec's stated rule with
the source's `_find_pdf_url_in_landing`, which never consults labels. -/
def findInLandingSpecSteps (page : Page) : String :=
  let pairs := (page.anchors.filter
      (fun a => pyStrip a.1 ≠ "" &&
        !(strStarts (lowerStr (pyStrip a.1)) "javascript:"))).map
    (fun a => (pyStrip a.1, a.2))
  match pairs.find? (fun a => strContains (lowerStr a.1) ".pdf") with
  | some a => urljoin page.pageUrl a.1
  | Option.none =>
    match pairs.find? (fun a =>
        strContains (lowerStr a.1) "pdf" || strContains (lowerStr a.1) "download" ||
        strContains (lowerStr a.2) "pdf" || strContains (lowerStr a.2) "download") with
    | some a => urljoin page.pageUrl a.1
    | Option.none => ""

/-- Modelled from the spec (§4.2): the DocumentResolver fallback chain
as the spec words it, differing from the source only in the third
step's label matching. -/
def findPdfUrlSpec (page : Page) : String :=
  match page.metaPdf with
  | some m =>
    if pyStrip m ≠ "" then urljoin page.pageUrl (pyStrip m)
    else findInLandingSpecSteps page
  | Option.none => findInLandingSpecSteps page

/-! ### `ValidateDedupLimitPipeline` (`pipelines.py`) -/

/-- The fields of a `JournalArticleItem` consulted by
`ValidateDedupLimitPipeline.process_item` (raw, as set by the spider;
`item.get(k, "")` with `None` read as `""`). -/
structure Item where
  title : String
  abstract : String
  source_url : String
  pdf_url : String
deriving Repr, DecidableEq

/-- `_HEALTH_KEYWORDS`. -/
def healthKeywords : List String :=
  ["kesehatan", "medis", "kedokteran", "keperawatan", "farmasi",
   "kesehatan masyarakat", "gizi", "klinis", "rumah sakit"]

/-- `_looks_health_related`. -/
def looks_health_related (title abstract : String) : Bool :=
  healthKeywords.any (fun k => strContains (lowerStr (title ++ " " ++ abstract)) k)

/-- The dedup key `(pdf_url or source_url or "") + "|" + title.lower()`
over the whitespace-normalized fields of an item, as computed by
`process_item`. -/
def dedupKey (i : Item) : String :=
  strOr (strOr (normalizeSpaces i.pdf_url) (normalizeSpaces i.source_url)) "" ++
    "|" ++ lowerStr (normalizeSpaces i.title)

/-- The Python set `self.seen`, as a list with set semantics (only
membership is observed). -/
abbrev Seen := List String

/-- `ValidateDedupLimitPipeline.process_item`.  `detect` models the
external seeded `langdetect.detect`, with `Option.none` for
`LangDetectException`.  Returns the outcome — `DropItem` reason or the
normalized item — together with the new `seen` set. -/
def process_item (detect : String → Option String) (seen : Seen) (item : Item) :
    Except String Item × Seen :=
  let title := normalizeSpaces item.title
  let abstract := normalizeSpaces item.abstract
  let source_url := normalizeSpaces item.source_url
  let pdf_url := normalizeSpaces item.pdf_url
  if title = "" ∨ abstract = "" then (Except.error "missing_title_or_abstract", seen)
  else if pdf_url = "" then (Except.error "missing_pdf_url", seen)
  else if ¬ looks_health_related title abstract then (Except.error "non_health_article", seen)
  else
    match detect abstract with
    | Option.none => (Except.error "langdetect_failed", seen)
    | Option.some lang =>
      if lang ≠ "id" then (Except.error ("non_indonesian_lang:" ++ lang), seen)
      else
        let key := strOr (strOr pdf_url source_url) "" ++ "|" ++ lowerStr title
        if key ∈ seen then (Except.error "duplicate", seen)
        else (Except.ok ⟨title, abstract, source_url, pdf_url⟩, key :: seen)

/-- Process a list of items in order, threading the `seen` set. -/
def processAll (detect : String → Option String) (seen : Seen) :
    List Item → List (Except String Item) × Seen
  | [] => ([], seen)
  | i :: is =>
    let r := process_item detect seen i
    let rest := processAll detect r.2 is
    (r.1 :: rest.1, rest.2)

/-- Number of items of `items` admitted (passing `process_item`) whose
dedup key is `k`, when processed in order starting from `seen`. -/
def countPassKey (detect : String → Option String) (seen : Seen) (k : String) :
    List Item → Nat
  | [] => 0
  | i :: is =>
    let r := process_item detect seen i
    (if r.1.isOk && dedupKey i = k then 1 else 0) + countPassKey detect r.2 k is

/-! ### The resume scan (`ValidateDedupLimitPipeline.open_spider`) -/

/-- One parsed row of the index CSV, holding the cells consulted by the
resume scan (a missing cell reads as `""`). -/
structure Row where
  pdf_url : String
  source_url : String
  title : String
  pdf_local_path : String
deriving Repr, DecidableEq

/-- State rebuilt by the resume scan: dedup keys and the count of rows
whose referenced local file still exists. -/
structure ScanState where
  seen : Seen
  existing_ok : Nat
deriving Repr, DecidableEq

/-- Effect of one well-formed row on the scan state.  `ex` models the
filesystem check `(store_root / pdf_local_path).exists()`. -/
def scanRow (ex : String → Bool) (st : ScanState) (r : Row) : ScanState :=
  let pdf_url := normalizeSpaces r.pdf_url
  let source_url := normalizeSpaces r.source_url
  let title := normalizeSpaces r.title
  let pdf_local_path := normalizeSpaces r.pdf_local_path
  let st1 :=
    if pdf_url ≠ "" ∨ source_url ≠ "" ∨ title ≠ "" then
      { st with seen := (strOr (strOr pdf_url source_url) "" ++ "|" ++
          (if title ≠ "" then lowerStr title else "")) :: st.seen }
    else st
  if pdf_local_path ≠ "" ∧ ex pdf_local_path then
    { st1 with existing_ok := st1.existing_ok + 1 }
  else st1

/-- The row loop of `ValidateDedupLimitPipeline.open_spider`.  A list
entry is a parsed row, or `Option.none` for a row whose processing
raises (e.g. `csv.Error`): the `try` wrapping the whole loop then
aborts the remaining iterations, keeps the state accumulated so far
and logs a warning. -/
def scanRows (ex : String → Bool) : ScanState → List (Option Row) → ScanState
  | st, [] => st
  | st, Option.none :: _ => st
  | st, Option.some r :: rest => scanRows ex (scanRow ex st r) rest

/-- Modelled from the spec (§4.5, §7(e)): the resume scan as the spec
words it — a malformed row is skipped with a warning and every later
row is still processed. -/
def scanRowsSpec (ex : String → Bool) : ScanState → List (Option Row) → ScanState
  | st, [] => st
  | st, Option.none :: rest => scanRowsSpec ex st rest
  | st, Option.some r :: rest => scanRowsSpec ex (scanRow ex st r) rest

/-! ### `PdfDownloadPipeline`: the download cap state machine -/

/-- The cap-relevant state of `PdfDownloadPipeline`: `downloaded_ok`
and `in_progress` (a Python set) from the source, plus embedding
bookkeeping: `pending` is the multiset of fetches issued but not yet
completed, and `fetches` counts every fetch ever issued. -/
structure DlState where
  downloadedOk : Nat
  inProgress : List String
  pending : List String
  fetches : Nat
deriving Repr, DecidableEq

/-- Python `set.add`. -/
def insertUrl (u : String) (l : List String) : List String :=
  if l.contains u then l else u :: l

/-- State after `open_spider`: `downloaded_ok` seeded with the resumed
count, nothing in flight. -/
def initDl (seed : Nat) : DlState :=
  { downloadedOk := seed, inProgress := [], pending := [], fetches := 0 }

/-- `PdfDownloadPipeline.get_media_requests` on an item whose raw
`pdf_url` is `url`.  `Except.error` is a `DropItem` with no fetch
issued; `Except.ok` means one fetch was issued. -/
def get_media_requests (cap : Nat) (s : DlState) (url : String) :
    Except String Unit × DlState :=
  if pyStrip url = "" then (Except.error "missing_pdf_url", s)
  else if s.downloadedOk + s.inProgress.length ≥ cap then
    (Except.error "pdf_limit_reached", s)
  else
    (Except.ok (), { s with
      inProgress := insertUrl (pyStrip url) s.inProgress,
      pending := pyStrip url :: s.pending,
      fetches := s.fetches + 1 })

/-- `PdfDownloadPipeline.item_completed` on an item whose raw `pdf_url`
is `url`, with `ok` the download result (`results` holding one
successful file).  `Except.error` is a raised `DropItem`. -/
def item_completed (cap : Nat) (s : DlState) (url : String) (ok : Bool) :
    Except String Unit × DlState :=
  let s1 := { s with inProgress := s.inProgress.erase (pyStrip url),
                     pending := s.pending.erase (pyStrip url) }
  if !ok then (Except.error "pdf_download_failed", s1)
  else
    let s2 := { s1 with downloadedOk := s1.downloadedOk + 1 }
    if s2.downloadedOk > cap then (Except.error "over_pdf_limit", s2)
    else (Except.ok (), s2)

/-- Observable pipeline events: an item entering the files pipeline,
and a media download completing for an item. -/
inductive DlEvent where
  | getMedia (url : String)
  | completed (url : String) (ok : Bool)
deriving Repr, DecidableEq

/-- State transition of one event. -/
def dlStep (cap : Nat) (s : DlState) : DlEvent → DlState
  | DlEvent.getMedia url => (get_media_requests cap s url).2
  | DlEvent.completed url ok => (item_completed cap s url ok).2

/-- Run a trace of events. -/
def dlRun (cap : Nat) (s : DlState) : List DlEvent → DlState
  | [] => s
  | e :: es => dlRun cap (dlStep cap s e) es

/-- A trace is valid when every completion corresponds to a fetch
issued earlier and not yet completed. -/
def ValidTrace (cap : Nat) (s : DlState) : List DlEvent → Bool
  | [] => true
  | DlEvent.getMedia url :: es =>
    ValidTrace cap (dlStep cap s (DlEvent.getMedia url)) es
  | DlEvent.completed url ok :: es =>
    s.pending.contains (pyStrip url) &&
      ValidTrace cap (dlStep cap s (DlEvent.completed url ok)) es

/-! ## Theorems -/

/-- C8: for every list of link records, `_extract_pdf_url` returns, in
priority order, the first link whose type contains "fulltext" and whose
URL ends in ".pdf" (case-insensitively); otherwise the first link whose
URL ends in ".pdf"; otherwise the empty string — and a non-empty result
always ends in ".pdf" (case-insensitively). -/
theorem C8_extract_pdf_url_priority (links : List Link) :
    (∀ l, links.find? isFulltextPdfLink = some l →
      extract_pdf_url links = pyStrip l.url) ∧
    (links.find? isFulltextPdfLink = Option.none →
      ∀ l, links.find? isPdfLink = some l →
        extract_pdf_url links = pyStrip l.url) ∧
    (links.find? isFulltextPdfLink = Option.none →
      links.find? isPdfLink = Option.none →
      extract_pdf_url links = "") ∧
    (extract_pdf_url links ≠ "" →
      strEnds (lowerStr (extract_pdf_url links)) ".pdf" = true) := by
  refine ⟨fun l h => ?_, fun h1 l h2 => ?_, fun h1 h2 => ?_, fun hne => ?_⟩
  · simp only [extract_pdf_url, h]
  · simp only [extract_pdf_url, h1, h2]
  · simp only [extract_pdf_url, h1, h2]
  · unfold extract_pdf_url at hne ⊢
    rcases hf : links.find? isFulltextPdfLink with _ | l
    · rcases hp : links.find? isPdfLink with _ | l
      · simp [hf, hp] at hne
      · have := List.find?_some hp
        simp only [isPdfLink, Bool.and_eq_true, decide_eq_true_eq] at this
        simp only [hf, hp]
        exact this.2
    · have := List.find?_some hf
      simp only [isFulltextPdfLink, Bool.and_eq_true, decide_eq_true_eq] at this
      simp only [hf]
      exact this.2

/-- C8 witness: a concrete link list where the fulltext loop misses and
the second loop fires. -/
theorem C8_extract_pdf_url_priority_witness :
    extract_pdf_url [⟨"http://a/x.html", "fulltext"⟩, ⟨" http://a/y.PDF ", "misc"⟩] =
      "http://a/y.PDF" :=
  (C8_extract_pdf_url_priority
      [⟨"http://a/x.html", "fulltext"⟩, ⟨" http://a/y.PDF ", "misc"⟩]).2.1
    (by decide) ⟨" http://a/y.PDF ", "misc"⟩ (by decide)

/-- C4 counterexample: the claim's step (3) says a hyperlink matches
when its target OR LABEL contains "download" or "pdf", but
`_find_pdf_url_in_landing` only ever inspects hrefs: on a page whose
only anchor has label "Download PDF" and an href mentioning neither
word, the code returns `""` while the claimed rule returns the link. -/
theorem C4_counterexample :
    find_pdf_url_in_landing
        ⟨"http://site/art/1", Option.none, [("http://x/item?id=1", "Download PDF")]⟩ = "" ∧
    findPdfUrlSpec
        ⟨"http://site/art/1", Option.none, [("http://x/item?id=1", "Download PDF")]⟩ =
      "http://x/item?id=1" := by
  constructor <;> decide

/-- C4 (amended): `_find_pdf_url_in_landing` applies exactly three
fallback steps in order with first match winning — (1) non-blank
`citation_pdf_url` meta content resolved against the page URL, (2) the
first kept hyperlink whose target contains ".pdf", absolute-resolved,
(3) the first kept hyperlink whose TARGET (labels are never consulted)
contains "pdf" or "download" — returning `""` when no step matches; in
particular a canonical tag `/files/a.pdf` with base
`http://site/art/1` yields `http://site/files/a.pdf`. -/
theorem C4_landing_fallback_order (page : Page) :
    (∀ m, page.metaPdf = some m → pyStrip m ≠ "" →
      find_pdf_url_in_landing page = urljoin page.pageUrl (pyStrip m)) ∧
    (page.metaPdf = Option.none ∨ (∃ m, page.metaPdf = some m ∧ pyStrip m = "") →
      find_pdf_url_in_landing page = findInLandingHrefs page) ∧
    (∀ h, (landingHrefs page).find? hrefHasPdfExt = some h →
      findInLandingHrefs page = urljoin page.pageUrl h) ∧
    ((landingHrefs page).find? hrefHasPdfExt = Option.none →
      ∀ h, (landingHrefs page).find? hrefMentionsPdfOrDownload = some h →
        findInLandingHrefs page = urljoin page.pageUrl h) ∧
    ((landingHrefs page).find? hrefHasPdfExt = Option.none →
      (landingHrefs page).find? hrefMentionsPdfOrDownload = Option.none →
      findInLandingHrefs page = "") ∧
    find_pdf_url_in_landing ⟨"http://site/art/1", some "/files/a.pdf", []⟩ =
      "http://site/files/a.pdf" := by
  refine ⟨fun m hm hne => ?_, fun hcase => ?_, fun h hf => ?_,
    fun h1 h hf => ?_, fun h1 h2 => ?_, by decide⟩
  · simp only [find_pdf_url_in_landing, hm]
    rw [if_pos hne]
  · rcases hcase with hnone | ⟨m, hm, hblank⟩
    · simp only [find_pdf_url_in_landing, hnone]
    · simp only [find_pdf_url_in_landing, hm, hblank]
      simp
  · simp only [findInLandingHrefs, hf]
  · simp only [findInLandingHrefs, h1, hf]
  · simp only [findInLandingHrefs, h1, h2]

/-- C4 witness: the amended theorem applied at a concrete page whose
meta tag is blank and whose second href matches step 2. -/
theorem C4_landing_fallback_order_witness :
    find_pdf_url_in_landing
        ⟨"http://site/art/1", some "  ",
          [("javascript:void(0)", "x"), ("view.pdf?d=1", "see")]⟩ =
      "http://site/art/view.pdf?d=1" := by
  have h := (C4_landing_fallback_order
      ⟨"http://site/art/1", some "  ",
        [("javascript:void(0)", "x"), ("view.pdf?d=1", "see")]⟩)
  rw [h.2.1 (Or.inr ⟨"  ", rfl, by decide⟩),
    h.2.2.1 "view.pdf?d=1" (by decide)]
  decide

theorem wordHex_length (w : Nat) : (wordHex w).length = 8 := by
  simp [wordHex]

theorem sha1Words_length (s : String) : (sha1Words s).length = 5 := by
  unfold sha1Words
  rcases (toBlocks (sha1Pad (utf8Bytes s))).foldl sha1Block
      (1732584193, 4023233417, 2562383102, 271733878, 3285377520) with
    ⟨a, b, c, d, e⟩
  rfl

/-- The hex digest always has 40 characters, like Python's
`hexdigest()`. -/
theorem sha1HexList_length (s : String) : (sha1HexList s).length = 40 := by
  have h : ∀ l : List Nat, (l.flatMap wordHex).length = 8 * l.length := by
    intro l
    induction l with
    | nil => simp
    | cons w ws ih =>
      simp only [List.flatMap_cons, List.length_append, ih, wordHex_length,
        List.length_cons]
      ring
  unfold sha1HexList
  rw [h, sha1Words_length]

/-- C6: filename derivation is a pure function of the URL (plus title
and configured lengths in slug mode): with the title strategy off the
name is `pdfs/<hex sha1(url)>.pdf` for every item; with it on, a
non-empty slug of the normalized title yields
`pdfs/<slug>-<hash short-hash>.pdf` and an empty slug falls back to the
hash-only name. -/
theorem C6_filename_derivation (cfg : FileCfg) (url : String) :
    (cfg.byTitle = false → ∀ i1 i2 : Option String,
      file_path cfg url i1 = file_path cfg url i2 ∧
      file_path cfg url i1 = "pdfs/" ++ sha1Hex url ++ ".pdf") ∧
    (cfg.byTitle = true → ∀ title : String,
      (slugifyFilename (normalizeSpaces title) cfg.slugMaxlen ≠ "" →
        file_path cfg url (some title) =
          "pdfs/" ++ slugifyFilename (normalizeSpaces title) cfg.slugMaxlen ++ "-" ++
            String.mk ((sha1HexList url).take (shortHashLen cfg.hashLen)) ++ ".pdf") ∧
      (slugifyFilename (normalizeSpaces title) cfg.slugMaxlen = "" →
        file_path cfg url (some title) = "pdfs/" ++ sha1Hex url ++ ".pdf")) := by
  constructor
  · intro hb i1 i2
    unfold file_path
    rw [hb]
    rcases i1 with _ | t1 <;> rcases i2 with _ | t2 <;> exact ⟨rfl, rfl⟩
  · intro hb title
    constructor
    · intro hs
      unfold file_path
      rw [hb]
      show (if slugifyFilename (normalizeSpaces title) cfg.slugMaxlen ≠ "" then
          "pdfs/" ++ slugifyFilename (normalizeSpaces title) cfg.slugMaxlen ++ "-" ++
            String.mk ((sha1HexList url).take (shortHashLen cfg.hashLen)) ++ ".pdf"
        else "pdfs/" ++ String.mk (sha1HexList url) ++ ".pdf") = _
      rw [if_pos hs]
    · intro hs
      unfold file_path
      rw [hb]
      show (if slugifyFilename (normalizeSpaces title) cfg.slugMaxlen ≠ "" then
          "pdfs/" ++ slugifyFilename (normalizeSpaces title) cfg.slugMaxlen ++ "-" ++
            String.mk ((sha1HexList url).take (shortHashLen cfg.hashLen)) ++ ".pdf"
        else "pdfs/" ++ String.mk (sha1HexList url) ++ ".pdf") = _
      rw [if_neg (fun hne => hne hs)]
      rfl

set_option maxHeartbeats 2000000 in
/-- C6 witness: concrete slug-mode and hash-mode filenames. -/
theorem C6_filename_derivation_witness :
    file_path ⟨true, 10, 120⟩ "http://x/a.pdf" (some " Gizi  Anak! ") =
      "pdfs/gizi-anak-0c32dca357.pdf" ∧
    file_path ⟨false, 10, 120⟩ "http://x/a.pdf" (some "ignored") =
      "pdfs/0c32dca357e51d92e3c7e204231286ce0ab5155b.pdf" := by
  constructor
  · rw [((C6_filename_derivation ⟨true, 10, 120⟩ "http://x/a.pdf").2 rfl
      " Gizi  Anak! ").1 (by decide)]
    decide
  · rw [((C6_filename_derivation ⟨false, 10, 120⟩ "http://x/a.pdf").1 rfl
      (some "ignored") Option.none).2]
    decide

/-- C10: the hash suffix used by the title-slug filename mode always
has between 6 and 40 hex characters: the configured
`PDF_FILENAME_HASH_LEN` is clamped below at 6 and above at 40, and the
40-character digest is truncated to exactly the clamped length. -/
theorem C10_hash_suffix_len (url : String) (hashLen : Int) :
    6 ≤ shortHashLen hashLen ∧ shortHashLen hashLen ≤ 40 ∧
    ((sha1HexList url).take (shortHashLen hashLen)).length = shortHashLen hashLen ∧
    (hashLen < 6 → shortHashLen hashLen = 6) ∧
    (40 < hashLen → shortHashLen hashLen = 40) ∧
    (6 ≤ hashLen → hashLen ≤ 40 → shortHashLen hashLen = hashLen.toNat) := by
  have h1 : (6 : Int) ≤ max 6 (min hashLen 40) := le_max_left _ _
  have h2 : max 6 (min hashLen 40) ≤ 40 :=
    max_le (by norm_num) (min_le_right _ _)
  have hlo : 6 ≤ shortHashLen hashLen := by
    unfold shortHashLen; omega
  have hhi : shortHashLen hashLen ≤ 40 := by
    unfold shortHashLen; omega
  refine ⟨hlo, hhi, ?_, ?_, ?_, ?_⟩
  · rw [List.length_take, sha1HexList_length]
    omega
  · intro h
    have : min hashLen 40 = hashLen := min_eq_left (by omega)
    unfold shortHashLen
    rw [this, max_eq_left (by omega)]
    rfl
  · intro h
    have : min hashLen 40 = 40 := min_eq_right (by omega)
    unfold shortHashLen
    rw [this]
    rfl
  · intro h6 h40
    have : min hashLen 40 = hashLen := min_eq_left h40
    unfold shortHashLen
    rw [this, max_eq_right h6]

/-- C10 witness: a configured length of 2 is raised to a 6-character
suffix. -/
theorem C10_hash_suffix_len_witness :
    ((sha1HexList "http://x/a.pdf").take (shortHashLen 2)).length = 6 :=
  ((C10_hash_suffix_len "http://x/a.pdf" 2).2.2.1).trans
    ((C10_hash_suffix_len "http://x/a.pdf" 2).2.2.2.1 (by decide))

/-- C3 counterexample: with a malformed (exception-raising) first row,
the scan does NOT process the well-formed row that follows it — the
resumed counter stays 0 although the spec-worded scan (skip and
continue) counts 1, and the same row alone counts 1. -/
theorem C3_counterexample :
    (scanRows (fun _ => true) ⟨[], 0⟩
        [Option.none, Option.some ⟨"http://x/a.pdf", "", "Judul", "pdfs/a.pdf"⟩]).existing_ok
        = 0 ∧
    (scanRowsSpec (fun _ => true) ⟨[], 0⟩
        [Option.none, Option.some ⟨"http://x/a.pdf", "", "Judul", "pdfs/a.pdf"⟩]).existing_ok
        = 1 ∧
    (scanRows (fun _ => true) ⟨[], 0⟩
        [Option.some ⟨"http://x/a.pdf", "", "Judul", "pdfs/a.pdf"⟩]).existing_ok = 1 := by
  exact ⟨by decide, by decide, by decide⟩

/-- C3 (amended): the resume scan tolerates a malformed
(exception-raising) row without aborting the run, but it stops at the
FIRST such row: the state is exactly that of the rows before it, and
only a file with no raising row has every row processed (where the
scan agrees with the spec-worded skip-and-continue scan). -/
theorem C3_scan_truncates_at_malformed (ex : String → Bool) (st : ScanState)
    (good rest : List (Option Row)) :
    scanRows ex st (good ++ Option.none :: rest) = scanRows ex st good ∧
    ∀ rows : List Row,
      scanRows ex st (rows.map Option.some) = scanRowsSpec ex st (rows.map Option.some) := by
  constructor
  · induction good generalizing st with
    | nil => rfl
    | cons r rs ih =>
      cases r with
      | none => rfl
      | some row => exact ih (scanRow ex st row)
  · intro rows
    induction rows generalizing st with
    | nil => rfl
    | cons row rs ih => exact ih (scanRow ex st row)

/-- Does a row increment the resumed counter: non-empty normalized
`pdf_local_path` whose file still exists. -/
def rowCounts (ex : String → Bool) (r : Row) : Bool :=
  normalizeSpaces r.pdf_local_path ≠ "" && ex (normalizeSpaces r.pdf_local_path)

theorem scanRow_existing_ok (ex : String → Bool) (st : ScanState) (r : Row) :
    (scanRow ex st r).existing_ok =
      st.existing_ok + (if rowCounts ex r then 1 else 0) := by
  unfold scanRow rowCounts
  by_cases hc : normalizeSpaces r.pdf_local_path ≠ "" ∧ ex (normalizeSpaces r.pdf_local_path)
  · rw [if_pos hc]
    have : (normalizeSpaces r.pdf_local_path ≠ "" &&
        ex (normalizeSpaces r.pdf_local_path)) = true := by
      simp [hc.1, hc.2]
    rw [this]
    split <;> simp
  · rw [if_neg hc]
    have : (normalizeSpaces r.pdf_local_path ≠ "" &&
        ex (normalizeSpaces r.pdf_local_path)) = false := by
      rcases Decidable.not_and_iff_or_not.mp hc with h | h <;> simp [h]
    rw [this]
    split <;> simp

/-- C7: over a well-formed prior index, the resume scan seeds the
counter with exactly the number of rows whose non-empty
`pdf_local_path` still exists under the files store; and a run whose
seeded counter already meets the cap does nothing at all on any valid
trace: no fetch is ever issued and the whole download state stays at
its initial value. -/
theorem C7_resume_seed_and_no_new_work :
    (∀ (ex : String → Bool) (st : ScanState) (rows : List Row),
      (scanRows ex st (rows.map Option.some)).existing_ok =
        st.existing_ok + rows.countP (rowCounts ex)) ∧
    (∀ (cap seed : Nat) (tr : List DlEvent), cap ≤ seed →
      ValidTrace cap (initDl seed) tr = true →
      dlRun cap (initDl seed) tr = initDl seed) := by
  constructor
  · intro ex st rows
    induction rows generalizing st with
    | nil => simp [scanRows]
    | cons r rs ih =>
      show (scanRows ex (scanRow ex st r) (rs.map Option.some)).existing_ok = _
      rw [ih (scanRow ex st r), scanRow_existing_ok, List.countP_cons]
      by_cases h : rowCounts ex r = true
      · simp [h]
        omega
      · simp [h]
  · intro cap seed tr
    suffices h : ∀ (tr : List DlEvent) (s : DlState), cap ≤ s.downloadedOk →
        s.pending = [] → ValidTrace cap s tr = true → dlRun cap s tr = s by
      intro hle hv
      exact h tr (initDl seed) hle rfl hv
    intro tr
    induction tr with
    | nil => intro s _ _ _; rfl
    | cons e es ih =>
      intro s hcap hpend hv
      cases e with
      | getMedia url =>
        have hstep : dlStep cap s (DlEvent.getMedia url) = s := by
          show (get_media_requests cap s url).2 = s
          unfold get_media_requests
          by_cases hu : pyStrip url = ""
          · rw [if_pos hu]
          · rw [if_neg hu, if_pos (le_trans hcap (Nat.le_add_right _ _))]
        rw [dlRun, hstep]
        rw [ValidTrace, hstep] at hv
        exact ih s hcap hpend hv
      | completed url ok =>
        rw [ValidTrace, hpend] at hv
        simp at hv

/-- C7 witness: with cap 1 and a resumed count of 2, a candidate with a
non-empty pdf_url is rejected and the state is unchanged; a concrete
two-row index seeds the counter with the single row whose file
exists. -/
theorem C7_resume_seed_and_no_new_work_witness :
    dlRun 1 (initDl 2) [DlEvent.getMedia "http://x/a.pdf"] = initDl 2 ∧
    (scanRows (fun p => p = "pdfs/a.pdf") ⟨[], 0⟩
        (([⟨"http://x/a.pdf", "", "Judul", "pdfs/a.pdf"⟩,
           ⟨"http://x/b.pdf", "", "Judul b", "pdfs/b.pdf"⟩] :
            List Row).map Option.some)).existing_ok = 0 + 1 := by
  constructor
  · exact C7_resume_seed_and_no_new_work.2 1 2 [DlEvent.getMedia "http://x/a.pdf"]
      (by decide) (by decide)
  · rw [C7_resume_seed_and_no_new_work.1]
    decide

/-- C5: `process_item` applies its sub-checks in the fixed order
title/abstract presence, PDF-URL presence, topical keyword match,
language detection, language value, deduplication; the first failing
sub-check short-circuits with its named `DropItem` reason
(`missing_title_or_abstract`, `missing_pdf_url`, `non_health_article`,
`langdetect_failed`, `non_indonesian_lang:<lang>`, `duplicate`), a drop
leaves the `seen` set untouched, and only a full pass mutates it. -/
theorem C5_check_order_and_drop_purity (detect : String → Option String)
    (seen : Seen) (i : Item) :
    (normalizeSpaces i.title = "" ∨ normalizeSpaces i.abstract = "" →
      process_item detect seen i = (Except.error "missing_title_or_abstract", seen)) ∧
    (¬(normalizeSpaces i.title = "" ∨ normalizeSpaces i.abstract = "") →
      normalizeSpaces i.pdf_url = "" →
      process_item detect seen i = (Except.error "missing_pdf_url", seen)) ∧
    (¬(normalizeSpaces i.title = "" ∨ normalizeSpaces i.abstract = "") →
      normalizeSpaces i.pdf_url ≠ "" →
      ¬ looks_health_related (normalizeSpaces i.title) (normalizeSpaces i.abstract) →
      process_item detect seen i = (Except.error "non_health_article", seen)) ∧
    (¬(normalizeSpaces i.title = "" ∨ normalizeSpaces i.abstract = "") →
      normalizeSpaces i.pdf_url ≠ "" →
      looks_health_related (normalizeSpaces i.title) (normalizeSpaces i.abstract) = true →
      detect (normalizeSpaces i.abstract) = Option.none →
      process_item detect seen i = (Except.error "langdetect_failed", seen)) ∧
    (∀ lang, ¬(normalizeSpaces i.title = "" ∨ normalizeSpaces i.abstract = "") →
      normalizeSpaces i.pdf_url ≠ "" →
      looks_health_related (normalizeSpaces i.title) (normalizeSpaces i.abstract) = true →
      detect (normalizeSpaces i.abstract) = Option.some lang → lang ≠ "id" →
      process_item detect seen i = (Except.error ("non_indonesian_lang:" ++ lang), seen)) ∧
    (¬(normalizeSpaces i.title = "" ∨ normalizeSpaces i.abstract = "") →
      normalizeSpaces i.pdf_url ≠ "" →
      looks_health_related (normalizeSpaces i.title) (normalizeSpaces i.abstract) = true →
      detect (normalizeSpaces i.abstract) = Option.some "id" →
      dedupKey i ∈ seen →
      process_item detect seen i = (Except.error "duplicate", seen)) ∧
    (¬(normalizeSpaces i.title = "" ∨ normalizeSpaces i.abstract = "") →
      normalizeSpaces i.pdf_url ≠ "" →
      looks_health_related (normalizeSpaces i.title) (normalizeSpaces i.abstract) = true →
      detect (normalizeSpaces i.abstract) = Option.some "id" →
      dedupKey i ∉ seen →
      process_item detect seen i =
        (Except.ok ⟨normalizeSpaces i.title, normalizeSpaces i.abstract,
          normalizeSpaces i.source_url, normalizeSpaces i.pdf_url⟩,
         dedupKey i :: seen)) := by
  have hkey : dedupKey i =
      strOr (strOr (normalizeSpaces i.pdf_url) (normalizeSpaces i.source_url)) "" ++
        "|" ++ lowerStr (normalizeSpaces i.title) := rfl
  refine ⟨fun h1 => ?_, fun h1 h2 => ?_, fun h1 h2 h3 => ?_, fun h1 h2 h3 h4 => ?_,
    fun lang h1 h2 h3 h4 h5 => ?_, fun h1 h2 h3 h4 h5 => ?_, fun h1 h2 h3 h4 h5 => ?_⟩
  · simp only [process_item]
    rw [if_pos h1]
  · simp only [process_item]
    rw [if_neg h1, if_pos h2]
  · simp only [process_item]
    rw [if_neg h1, if_neg h2, if_pos h3]
  · simp only [process_item]
    rw [if_neg h1, if_neg h2, if_neg (not_not_intro h3), h4]
  · simp only [process_item]
    rw [if_neg h1, if_neg h2, if_neg (not_not_intro h3), h4]
    simp only []
    rw [if_pos h5]
  · simp only [process_item]
    rw [if_neg h1, if_neg h2, if_neg (not_not_intro h3), h4]
    simp only []
    rw [if_neg (fun h => h rfl), ← hkey, if_pos h5]
  · simp only [process_item]
    rw [if_neg h1, if_neg h2, if_neg (not_not_intro h3), h4]
    simp only []
    rw [if_neg (fun h => h rfl), ← hkey, if_neg h5]

/-- C5 witness: a concrete topical-check failure drops with
`non_health_article` and leaves the seen set unchanged. -/
theorem C5_check_order_and_drop_purity_witness :
    process_item (fun _ => Option.some "id") ["k"]
        ⟨"Judul Umum", "Abstrak tanpa kata kunci", "", "http://x/a.pdf"⟩ =
      (Except.error "non_health_article", ["k"]) :=
  (C5_check_order_and_drop_purity (fun _ => Option.some "id") ["k"]
      ⟨"Judul Umum", "Abstrak tanpa kata kunci", "", "http://x/a.pdf"⟩).2.2.1
    (by decide) (by decide) (by decide)

theorem error_not_isOk {e : Type} {a : Type} (x : e) :
    (Except.error x : Except e a).isOk = false := rfl

/-- Case analysis of `process_item`: a drop keeps `seen` unchanged; a
pass happens only when the key is fresh and conses exactly it. -/
theorem process_item_cases (detect : String → Option String) (seen : Seen) (i : Item) :
    (∃ e, process_item detect seen i = (Except.error e, seen)) ∨
    (dedupKey i ∉ seen ∧
      (process_item detect seen i).1 =
        Except.ok ⟨normalizeSpaces i.title, normalizeSpaces i.abstract,
          normalizeSpaces i.source_url, normalizeSpaces i.pdf_url⟩ ∧
      (process_item detect seen i).2 = dedupKey i :: seen) := by
  have hkey : dedupKey i =
      strOr (strOr (normalizeSpaces i.pdf_url) (normalizeSpaces i.source_url)) "" ++
        "|" ++ lowerStr (normalizeSpaces i.title) := rfl
  simp only [process_item]
  by_cases h1 : normalizeSpaces i.title = "" ∨ normalizeSpaces i.abstract = ""
  · rw [if_pos h1]; exact Or.inl ⟨_, rfl⟩
  rw [if_neg h1]
  by_cases h2 : normalizeSpaces i.pdf_url = ""
  · rw [if_pos h2]; exact Or.inl ⟨_, rfl⟩
  rw [if_neg h2]
  by_cases h3 : ¬ looks_health_related (normalizeSpaces i.title) (normalizeSpaces i.abstract)
  · rw [if_pos h3]; exact Or.inl ⟨_, rfl⟩
  rw [if_neg h3]
  rcases hdet : detect (normalizeSpaces i.abstract) with _ | lang
  · exact Or.inl ⟨_, rfl⟩
  simp only []
  by_cases h4 : lang ≠ "id"
  · rw [if_pos h4]; exact Or.inl ⟨_, rfl⟩
  rw [if_neg h4, ← hkey]
  by_cases h5 : dedupKey i ∈ seen
  · rw [if_pos h5]; exact Or.inl ⟨_, rfl⟩
  rw [if_neg h5]
  exact Or.inr ⟨h5, rfl, rfl⟩

/-- A drop never shrinks `seen`; a pass only adds the item's key. -/
theorem process_item_seen_mono (detect : String → Option String) (seen : Seen)
    (i : Item) (k : String) (hk : k ∈ seen) : k ∈ (process_item detect seen i).2 := by
  rcases process_item_cases detect seen i with ⟨e, he⟩ | ⟨_, _, h2⟩
  · rw [he]; exact hk
  · rw [h2]; exact List.mem_cons_of_mem _ hk

/-- Once the key is in `seen`, no item with that dedup key ever
passes. -/
theorem countPassKey_of_mem (detect : String → Option String) (k : String) :
    ∀ (items : List Item) (seen : Seen), k ∈ seen →
      countPassKey detect seen k items = 0 := by
  intro items
  induction items with
  | nil => intro seen _; rfl
  | cons i is ih =>
    intro seen hk
    show (if (process_item detect seen i).1.isOk && dedupKey i = k then 1 else 0) +
        countPassKey detect (process_item detect seen i).2 k is = 0
    have hz : (if (process_item detect seen i).1.isOk && dedupKey i = k then 1 else 0) = 0 := by
      rcases process_item_cases detect seen i with ⟨e, he⟩ | ⟨hnot, _, _⟩
      · simp [he, error_not_isOk]
      · by_cases hik : dedupKey i = k
        · exact absurd (hik ▸ hk) hnot
        · simp [hik]
    rw [hz, ih _ (process_item_seen_mono detect seen i k hk)]

/-- C2: within one session (the `seen` set, seeded from the persisted
CSV at startup), at most one item with a given dedup key is ever
admitted by `process_item`: a key already loaded at startup admits
none, a pass inserts its key as a side effect, and an item with an
already-seen key that reaches the dedup check is dropped with reason
`duplicate`. -/
theorem C2_dedup_at_most_one (detect : String → Option String) (seen : Seen)
    (k : String) (items : List Item) :
    countPassKey detect seen k items ≤ 1 ∧
    (k ∈ seen → countPassKey detect seen k items = 0) ∧
    (∀ i : Item, (process_item detect seen i).1.isOk = true →
      dedupKey i ∉ seen ∧ (process_item detect seen i).2 = dedupKey i :: seen) ∧
    (∀ i : Item, dedupKey i ∈ seen →
      normalizeSpaces i.title ≠ "" → normalizeSpaces i.abstract ≠ "" →
      normalizeSpaces i.pdf_url ≠ "" →
      looks_health_related (normalizeSpaces i.title) (normalizeSpaces i.abstract) = true →
      detect (normalizeSpaces i.abstract) = Option.some "id" →
      process_item detect seen i = (Except.error "duplicate", seen)) := by
  refine ⟨?_, countPassKey_of_mem detect k items seen, fun i hok => ?_, fun i h1 h2 h3 h4 h5 h6 => ?_⟩
  · induction items generalizing seen with
    | nil => exact Nat.zero_le 1
    | cons i is ih =>
      show (if (process_item detect seen i).1.isOk && dedupKey i = k then 1 else 0) +
          countPassKey detect (process_item detect seen i).2 k is ≤ 1
      by_cases hp : ((process_item detect seen i).1.isOk && dedupKey i = k) = true
      · rcases process_item_cases detect seen i with ⟨e, he⟩ | ⟨_, _, hpass⟩
        · rw [he] at hp; simp [error_not_isOk] at hp
        · have hik : dedupKey i = k := by
            simp only [Bool.and_eq_true, decide_eq_true_eq] at hp
            exact hp.2
          have hkmem : k ∈ (process_item detect seen i).2 := by
            rw [hpass]
            exact hik ▸ List.mem_cons_self _ _
          rw [if_pos hp, countPassKey_of_mem detect k is _ hkmem]
      · rw [if_neg hp, Nat.zero_add]
        exact ih _
  · rcases process_item_cases detect seen i with ⟨e, he⟩ | ⟨hnot, _, hcons⟩
    · rw [he] at hok; simp [error_not_isOk] at hok
    · exact ⟨hnot, hcons⟩
  · have hkey : dedupKey i =
        strOr (strOr (normalizeSpaces i.pdf_url) (normalizeSpaces i.source_url)) "" ++
          "|" ++ lowerStr (normalizeSpaces i.title) := rfl
    simp only [process_item]
    rw [if_neg (by simp [h2, h3]), if_neg h4, if_neg (not_not_intro h5), h6]
    simp only []
    rw [if_neg (fun h => h rfl), ← hkey, if_pos h1]

/-- C2 witness: the same item passed twice against an initially seeded
key list — the seeded key admits nothing, and a fresh pass records its
key. -/
theorem C2_dedup_at_most_one_witness :
    process_item (fun _ => Option.some "id")
        [dedupKey ⟨"Gizi Anak", "Abstrak tentang kesehatan", "", "http://x/a.pdf"⟩]
        ⟨"Gizi Anak", "Abstrak tentang kesehatan", "", "http://x/a.pdf"⟩ =
      (Except.error "duplicate",
        [dedupKey ⟨"Gizi Anak", "Abstrak tentang kesehatan", "", "http://x/a.pdf"⟩]) :=
  (C2_dedup_at_most_one (fun _ => Option.some "id")
      [dedupKey ⟨"Gizi Anak", "Abstrak tentang kesehatan", "", "http://x/a.pdf"⟩]
      "" []).2.2.2
    ⟨"Gizi Anak", "Abstrak tentang kesehatan", "", "http://x/a.pdf"⟩
    (List.mem_singleton.mpr rfl) (by decide) (by decide) (by decide) (by decide) rfl

/-- The stripped `pdf_url`s of the candidates entering
`get_media_requests` in a trace (admitted or not). -/
def admUrls : List DlEvent → List String
  | [] => []
  | DlEvent.getMedia url :: es => pyStrip url :: admUrls es
  | DlEvent.completed _ _ :: es => admUrls es

/-- Invariant tying the counter, the in-flight set and the pending
fetch multiset together, bounded by `bd` (the cap, or `max seed cap`
when the resumed seed already exceeds the cap). -/
def DlInv (bd : Nat) (s : DlState) : Prop :=
  s.inProgress = s.pending ∧ s.pending.Nodup ∧
    s.downloadedOk + s.pending.length ≤ bd

theorem dlRun_inv (cap bd : Nat) (hbd : cap ≤ bd) :
    ∀ (tr : List DlEvent) (s : DlState), DlInv bd s →
      (admUrls tr).Nodup → (∀ u ∈ admUrls tr, u ∉ s.pending) →
      ValidTrace cap s tr = true → DlInv bd (dlRun cap s tr) := by
  intro tr
  induction tr with
  | nil => intro s hinv _ _ _; exact hinv
  | cons e es ih =>
    intro s hinv hnd hfut hv
    cases e with
    | getMedia url =>
      rw [ValidTrace] at hv
      rw [dlRun]
      simp only [dlStep] at hv ⊢
      have hndtl : (admUrls es).Nodup := (List.nodup_cons.mp hnd).2
      have hhead : pyStrip url ∉ s.pending := hfut _ (List.mem_cons_self _ _)
      have hfuttl : ∀ u ∈ admUrls es, u ∉ s.pending :=
        fun u hu => hfut u (List.mem_cons_of_mem _ hu)
      unfold get_media_requests at hv ⊢
      by_cases hu : pyStrip url = ""
      · rw [if_pos hu] at hv ⊢
        exact ih s hinv hndtl hfuttl hv
      rw [if_neg hu] at hv ⊢
      by_cases hcap : s.downloadedOk + s.inProgress.length ≥ cap
      · rw [if_pos hcap] at hv ⊢
        exact ih s hinv hndtl hfuttl hv
      rw [if_neg hcap] at hv ⊢
      obtain ⟨heq, hndp, hle⟩ := hinv
      have hlt : s.downloadedOk + s.pending.length < cap := by
        rw [← heq]; omega
      have hnotin : ¬ s.inProgress.contains (pyStrip url) = true := by
        rw [heq]; simpa using hhead
      have hins : insertUrl (pyStrip url) s.inProgress = pyStrip url :: s.pending := by
        unfold insertUrl
        rw [if_neg hnotin, heq]
      refine ih _ ⟨hins, List.nodup_cons.mpr ⟨hhead, hndp⟩, ?_⟩ hndtl ?_ hv
      · simp only [List.length_cons]
        omega
      · intro u hu hmem
        rcases List.mem_cons.mp hmem with h | h
        · exact (List.nodup_cons.mp hnd).1 (h ▸ hu)
        · exact hfut u (List.mem_cons_of_mem _ hu) h
    | completed url ok =>
      rw [ValidTrace, Bool.and_eq_true] at hv
      obtain ⟨hmem, hv⟩ := hv
      have hmem : pyStrip url ∈ s.pending := by simpa using hmem
      rw [dlRun]
      simp only [dlStep] at hv ⊢
      obtain ⟨heq, hndp, hle⟩ := hinv
      have herase : s.inProgress.erase (pyStrip url) = s.pending.erase (pyStrip url) := by
        rw [heq]
      have hlen : (s.pending.erase (pyStrip url)).length = s.pending.length - 1 := by
        simp [List.length_erase, hmem]
      have hpos : 1 ≤ s.pending.length :=
        List.length_pos.mpr (fun h => by rw [h] at hmem; simp at hmem)
      have hfut2 : ∀ u ∈ admUrls es, u ∉ s.pending.erase (pyStrip url) :=
        fun u hu hmem2 => hfut u hu (List.mem_of_mem_erase hmem2)
      have hndtl : (admUrls es).Nodup := hnd
      cases ok with
      | false =>
        have hstep : (item_completed cap s url false).2 =
            { s with inProgress := s.inProgress.erase (pyStrip url),
                     pending := s.pending.erase (pyStrip url) } := by
          simp [item_completed]
        rw [hstep] at hv ⊢
        exact ih _ ⟨herase, hndp.erase _, by
          show s.downloadedOk + (s.pending.erase (pyStrip url)).length ≤ bd
          rw [hlen]; omega⟩ hndtl hfut2 hv
      | true =>
        have hstep : (item_completed cap s url true).2 =
            { s with inProgress := s.inProgress.erase (pyStrip url),
                     pending := s.pending.erase (pyStrip url),
                     downloadedOk := s.downloadedOk + 1 } := by
          simp [item_completed, apply_ite]
        rw [hstep] at hv ⊢
        exact ih _ ⟨herase, hndp.erase _, by
          show s.downloadedOk + 1 + (s.pending.erase (pyStrip url)).length ≤ bd
          rw [hlen]; omega⟩ hndtl hfut2 hv

/-- C1 counterexample: `in_progress` is a SET, so two items sharing one
`pdf_url` under-count the in-flight work: on a valid trace with cap 2 —
admit `u`, admit `u` again, admit `w`, then three successful
completions — `downloaded_ok` reaches 3 > 2, so the counter does exceed
the cap after `item_completed` returns or raises. -/
theorem C1_counterexample :
    ValidTrace 2 (initDl 0)
        [DlEvent.getMedia "u", DlEvent.getMedia "u", DlEvent.getMedia "w",
         DlEvent.completed "u" true, DlEvent.completed "u" true,
         DlEvent.completed "w" true] = true ∧
    (dlRun 2 (initDl 0)
        [DlEvent.getMedia "u", DlEvent.getMedia "u", DlEvent.getMedia "w",
         DlEvent.completed "u" true, DlEvent.completed "u" true,
         DlEvent.completed "w" true]).downloadedOk = 3 := by
  exact ⟨by decide, by decide⟩

/-- C1 (amended): `get_media_requests` rejects a candidate with no
fetch and no state change whenever `downloaded_ok` plus the size of the
in-flight set is at least the cap; on every valid trace whose
candidates carry pairwise-distinct `pdf_url`s the counter never exceeds
`max seed cap` — in particular never exceeds the cap whenever the
resumed seed is at most the cap (the code never clamps the seed, so a
seed above the cap already exceeds it at startup); and whenever an
increment in `item_completed` takes the counter above the cap
(possible with duplicated `pdf_url`s, since the in-flight set
under-counts), the item is rejected with `over_pdf_limit` instead of
being returned — but the counter itself is left above the cap. -/
theorem C1_cap_enforcement (cap seed : Nat) (tr : List DlEvent) :
    (∀ (s : DlState) (url : String), pyStrip url ≠ "" →
      s.downloadedOk + s.inProgress.length ≥ cap →
      get_media_requests cap s url = (Except.error "pdf_limit_reached", s)) ∧
    ((admUrls tr).Nodup → ValidTrace cap (initDl seed) tr = true →
      (dlRun cap (initDl seed) tr).downloadedOk ≤ max seed cap) ∧
    (seed ≤ cap → (admUrls tr).Nodup →
      ValidTrace cap (initDl seed) tr = true →
      (dlRun cap (initDl seed) tr).downloadedOk ≤ cap) ∧
    (∀ (s : DlState) (url : String),
      cap < (item_completed cap s url true).2.downloadedOk →
      (item_completed cap s url true).1 = Except.error "over_pdf_limit") := by
  have hmax : ∀ bd : Nat, cap ≤ bd → seed ≤ bd →
      (admUrls tr).Nodup → ValidTrace cap (initDl seed) tr = true →
      (dlRun cap (initDl seed) tr).downloadedOk ≤ bd := by
    intro bd hc hs hnd hv
    have hinv : DlInv bd (initDl seed) := ⟨rfl, List.nodup_nil, by
      show seed + (0 : Nat) ≤ bd
      omega⟩
    have h := dlRun_inv cap bd hc tr (initDl seed) hinv hnd
      (by intro u hu hmem; simp [initDl] at hmem) hv
    obtain ⟨_, _, hle⟩ := h
    omega
  refine ⟨fun s url hu hcap => ?_, ?_, ?_, fun s url hover => ?_⟩
  · unfold get_media_requests
    rw [if_neg hu, if_pos hcap]
  · exact hmax (max seed cap) (le_max_right _ _) (le_max_left _ _)
  · intro hseed
    exact hmax cap le_rfl hseed
  · have hcnt : (item_completed cap s url true).2.downloadedOk = s.downloadedOk + 1 := by
      simp [item_completed, apply_ite]
    rw [hcnt] at hover
    unfold item_completed
    simp only [Bool.not_true]
    rw [if_neg (by simp)]
    rw [if_pos (by show s.downloadedOk + 1 > cap; omega)]

/-- C1 witness: on a duplicate-free valid trace with cap 2 and seed 1
the counter stays within the cap; with an over-cap seed 5 and cap 1 it
stays within max 5 1; and a cap-saturated state rejects a fresh
candidate unchanged. -/
theorem C1_cap_enforcement_witness :
    (dlRun 2 (initDl 1)
        [DlEvent.getMedia "a", DlEvent.completed "a" true]).downloadedOk ≤ 2 ∧
    (dlRun 1 (initDl 5) [DlEvent.getMedia "a"]).downloadedOk ≤ max 5 1 ∧
    get_media_requests 2 (initDl 2) "http://x/c.pdf" =
      (Except.error "pdf_limit_reached", initDl 2) := by
  refine ⟨?_, ?_, ?_⟩
  · exact (C1_cap_enforcement 2 1
        [DlEvent.getMedia "a", DlEvent.completed "a" true]).2.2.1
      (by decide) (by decide) (by decide)
  · exact (C1_cap_enforcement 1 5 [DlEvent.getMedia "a"]).2.1
      (by decide) (by decide)
  · exact (C1_cap_enforcement 2 2 []).1 (initDl 2) "http://x/c.pdf"
      (by decide) (by decide)

/-! ### Whitespace-normalization safety (`_pick_first_string`) -/

/-- Every whitespace character is a plain space. -/
def allWsSingle (l : List Char) : Bool :=
  l.all (fun c => !isPyWs c || c = ' ')

/-- No two adjacent whitespace characters (runs have length at most
one). -/
def noAdjWs : List Char → Bool
  | [] => true
  | [_] => true
  | a :: b :: t => !(isPyWs a && isPyWs b) && noAdjWs (b :: t)

/-- The first character, if any, is not whitespace. -/
def headNotWs : List Char → Bool
  | [] => true
  | c :: _ => !isPyWs c

/-- A fully normalized output string: no leading or trailing
whitespace, no whitespace run longer than one character, every
whitespace character a single space. -/
def isNormOut (s : String) : Bool :=
  allWsSingle s.data && noAdjWs s.data && headNotWs s.data &&
    headNotWs s.data.reverse

theorem allWsSingle_collapse (l : List Char) :
    ∀ b, allWsSingle (collapseWsAux b l) = true := by
  induction l with
  | nil => intro b; rfl
  | cons c cs ih =>
    intro b
    by_cases h : isPyWs c = true
    · cases b with
      | true => simpa [collapseWsAux, h] using ih true
      | false =>
        simp only [collapseWsAux, h, if_true, if_false]
        simpa [allWsSingle, isPyWs] using ih true
    · simp only [collapseWsAux, h]
      simpa [allWsSingle, Bool.eq_false_iff.mpr h, h] using ih false

theorem headNotWs_collapse_true (l : List Char) :
    headNotWs (collapseWsAux true l) = true := by
  induction l with
  | nil => rfl
  | cons c cs ih =>
    by_cases h : isPyWs c = true
    · simpa [collapseWsAux, h] using ih
    · simp [collapseWsAux, h, headNotWs]

theorem noAdjWs_tail (a : Char) (l : List Char)
    (h : noAdjWs (a :: l) = true) : noAdjWs l = true := by
  cases l with
  | nil => rfl
  | cons b t =>
    have := (Bool.and_eq_true _ _ ▸ h : _ ∧ _)
    exact this.2

theorem noAdjWs_cons (a : Char) (l : List Char) (h : noAdjWs l = true)
    (hh : isPyWs a = false ∨ headNotWs l = true) : noAdjWs (a :: l) = true := by
  cases l with
  | nil => rfl
  | cons b t =>
    show (!(isPyWs a && isPyWs b) && noAdjWs (b :: t)) = true
    rw [h, Bool.and_true]
    rcases hh with hws | hhead
    · simp [hws]
    · have : isPyWs b = false := by simpa [headNotWs] using hhead
      simp [this]

theorem noAdjWs_collapse (l : List Char) :
    ∀ b, noAdjWs (collapseWsAux b l) = true := by
  induction l with
  | nil => intro b; rfl
  | cons c cs ih =>
    intro b
    by_cases h : isPyWs c = true
    · cases b with
      | true => simpa [collapseWsAux, h] using ih true
      | false =>
        simp only [collapseWsAux, h, if_true, if_false]
        exact noAdjWs_cons ' ' _ (ih true) (Or.inr (headNotWs_collapse_true cs))
    · simp only [collapseWsAux, h]
      exact noAdjWs_cons c _ (ih false) (Or.inl (Bool.eq_false_iff.mpr h))

theorem all_dropWhile (q p : Char → Bool) (l : List Char)
    (h : l.all q = true) : (l.dropWhile p).all q = true := by
  induction l with
  | nil => rfl
  | cons c cs ih =>
    rw [List.all_cons, Bool.and_eq_true] at h
    by_cases hp : p c = true
    · rw [List.dropWhile_cons_of_pos hp]
      exact ih h.2
    · rw [List.dropWhile_cons_of_neg (by simpa using hp)]
      rw [List.all_cons, h.1, Bool.true_and]
      exact h.2

theorem noAdjWs_dropWhile (p : Char → Bool) (l : List Char)
    (h : noAdjWs l = true) : noAdjWs (l.dropWhile p) = true := by
  induction l with
  | nil => rfl
  | cons c cs ih =>
    by_cases hp : p c = true
    · rw [List.dropWhile_cons_of_pos hp]
      exact ih (noAdjWs_tail c cs h)
    · rwa [List.dropWhile_cons_of_neg (by simpa using hp)]

theorem headNotWs_dropWhile (l : List Char) :
    headNotWs (l.dropWhile isPyWs) = true := by
  induction l with
  | nil => rfl
  | cons c cs ih =>
    by_cases hp : isPyWs c = true
    · rw [List.dropWhile_cons_of_pos hp]
      exact ih
    · rw [List.dropWhile_cons_of_neg (by simpa using hp)]
      simpa [headNotWs] using Bool.eq_false_iff.mpr hp

/-- `noAdjWs` as a `Chain'` of the no-two-adjacent-whitespace
relation. -/
theorem noAdjWs_iff_chain (l : List Char) :
    noAdjWs l = true ↔
      List.Chain' (fun a b => ¬(isPyWs a = true ∧ isPyWs b = true)) l := by
  induction l with
  | nil => simp [noAdjWs]
  | cons a l ih =>
    cases l with
    | nil => simp [noAdjWs]
    | cons b t =>
      rw [List.chain'_cons, ← ih]
      show (!(isPyWs a && isPyWs b) && noAdjWs (b :: t)) = true ↔ _
      rw [Bool.and_eq_true, Bool.not_eq_true', Bool.and_eq_false_iff]
      constructor
      · rintro ⟨h1, h2⟩
        refine ⟨fun ⟨ha, hb⟩ => ?_, h2⟩
        rcases h1 with h | h
        · rw [ha] at h; exact Bool.true_eq_false.mp h
        · rw [hb] at h; exact Bool.true_eq_false.mp h
      · rintro ⟨h1, h2⟩
        refine ⟨?_, h2⟩
        by_cases ha : isPyWs a = true
        · by_cases hb : isPyWs b = true
          · exact absurd ⟨ha, hb⟩ h1
          · exact Or.inr (Bool.eq_false_iff.mpr hb)
        · exact Or.inl (Bool.eq_false_iff.mpr ha)

theorem noAdjWs_reverse (l : List Char) (h : noAdjWs l = true) :
    noAdjWs l.reverse = true := by
  rw [noAdjWs_iff_chain] at h ⊢
  rw [List.chain'_reverse]
  exact List.Chain'.imp (fun a b hab => fun ⟨x, y⟩ => hab ⟨y, x⟩) h

theorem headNotWs_isPre (l m : List Char) (hp : m <+: l)
    (h : headNotWs l = true) : headNotWs m = true := by
  obtain ⟨t, rfl⟩ := hp
  cases m with
  | nil => rfl
  | cons c cs => exact h

theorem dropTrailing_isPre (p : Char → Bool) (l : List Char) :
    dropTrailing p l <+: l := by
  have hsuf : l.reverse.dropWhile p <:+ l.reverse := List.dropWhile_suffix p
  have := List.reverse_prefix.mpr hsuf
  rwa [List.reverse_reverse] at this

/-- The composite `re.sub(r"\s+", " ", s).strip()` always produces a
normalized string. -/
theorem isNormOut_subWsStrip (s : String) : isNormOut (subWsStrip s) = true := by
  unfold subWsStrip pyStripBy dropTrailing collapseWs
  have hm := allWsSingle_collapse s.data false
  have hmn := noAdjWs_collapse s.data false
  set m := collapseWsAux false s.data with hmdef
  set m1 := m.dropWhile isPyWs with hm1def
  have h1a : allWsSingle m1 = true := all_dropWhile _ _ _ hm
  have h1n : noAdjWs m1 = true := noAdjWs_dropWhile _ _ hmn
  have h1h : headNotWs m1 = true := headNotWs_dropWhile m
  set r := (m1.reverse.dropWhile isPyWs).reverse with hrdef
  have hra : allWsSingle r = true := by
    rw [hrdef]
    unfold allWsSingle at h1a ⊢
    rw [List.all_reverse]
    exact all_dropWhile _ _ _ (by rwa [List.all_reverse])
  have hrn : noAdjWs r = true :=
    noAdjWs_reverse _ (noAdjWs_dropWhile _ _ (noAdjWs_reverse _ h1n))
  have hrh : headNotWs r = true :=
    headNotWs_isPre m1 r (hrdef ▸ dropTrailing_isPre isPyWs m1) h1h
  have hrl : headNotWs r.reverse = true := by
    rw [hrdef, List.reverse_reverse]
    exact headNotWs_dropWhile m1.reverse
  show (allWsSingle r && noAdjWs r && headNotWs r && headNotWs r.reverse) = true
  rw [hra, hrn, hrh, hrl]
  rfl

/-- Does `_pick_first_string`'s list loop accept this element: a string
with non-whitespace content. -/
def isContentStr : PyVal → Bool
  | PyVal.str v => pyStrip v ≠ ""
  | _ => false

theorem pickFromList_eq_find (l : List PyVal) :
    pickFromList l =
      (match l.find? isContentStr with
       | some (PyVal.str w) => subWsStrip w
       | _ => "") := by
  induction l with
  | nil => rfl
  | cons v vs ih =>
    cases v with
    | str w =>
      by_cases h : pyStrip w ≠ ""
      · have hc : isContentStr (PyVal.str w) = true := by
          simpa [isContentStr] using h
        rw [show pickFromList (PyVal.str w :: vs) = subWsStrip w from by
          simp [pickFromList, h]]
        rw [List.find?_cons_of_pos _ hc]
      · have hc : isContentStr (PyVal.str w) = false := by
          simpa [isContentStr] using h
        rw [show pickFromList (PyVal.str w :: vs) = pickFromList vs from by
          simp [pickFromList, h]]
        rw [List.find?_cons_of_neg _ (by simp [hc])]
        exact ih
    | none =>
      rw [show pickFromList (PyVal.none :: vs) = pickFromList vs from rfl]
      rw [List.find?_cons_of_neg _ (by simp [isContentStr])]
      exact ih
    | list m =>
      rw [show pickFromList (PyVal.list m :: vs) = pickFromList vs from rfl]
      rw [List.find?_cons_of_neg _ (by simp [isContentStr])]
      exact ih
    | other =>
      rw [show pickFromList (PyVal.other :: vs) = pickFromList vs from rfl]
      rw [List.find?_cons_of_neg _ (by simp [isContentStr])]
      exact ih

theorem isNormOut_pickFromList (l : List PyVal) :
    isNormOut (pickFromList l) = true := by
  induction l with
  | nil => rfl
  | cons v vs ih =>
    cases v with
    | str w =>
      by_cases h : pyStrip w ≠ ""
      · rw [show pickFromList (PyVal.str w :: vs) = subWsStrip w from by
          simp [pickFromList, h]]
        exact isNormOut_subWsStrip w
      · rwa [show pickFromList (PyVal.str w :: vs) = pickFromList vs from by
          simp [pickFromList, h]]
    | none => exact ih
    | list m => exact ih
    | other => exact ih

/-- C9: `_pick_first_string` is total over arbitrary loosely-typed
input and always yields a fully normalized string — no leading or
trailing whitespace and no internal whitespace run longer than one
space; a string input is whitespace-normalized, a list yields the
normalization of its first string element with non-whitespace content
(or `""` when there is none), and `None` or any non-string non-list
value yields `""`. -/
theorem C9_pick_first_string_total (v : PyVal) :
    isNormOut (pick_first_string v) = true ∧
    pick_first_string PyVal.none = "" ∧
    pick_first_string PyVal.other = "" ∧
    (∀ s, pick_first_string (PyVal.str s) = subWsStrip s) ∧
    (∀ l, pick_first_string (PyVal.list l) =
      (match l.find? isContentStr with
       | some (PyVal.str w) => subWsStrip w
       | _ => "")) := by
  refine ⟨?_, rfl, rfl, fun s => rfl, fun l => pickFromList_eq_find l⟩
  cases v with
  | none => rfl
  | other => rfl
  | str s => exact isNormOut_subWsStrip s
  | list l => exact isNormOut_pickFromList l

end JurnalScraping
